import Mathlib

/-!
Shallow embedding of the moneybot core: the ingestion engine of
src/moneybot/MarketHistory.py (scrape_since_last_reading and its inner
helpers) and the fund engine of src/moneybot/fund.py (Fund.step, the sleep
computation of Fund.run_live, and Fund.begin_backtest).

Modelling conventions: Python floats become rationals, unix timestamps
become naturals, pandas DataFrame rows and InfluxDB field sets become
association lists from column name to value, and fallible effects
(HTTP fetches, store queries) become explicit `Except` values or function
arguments.  The time-series store is a list of chart points; a run returns
either the final store or the error that aborted it together with the store
content at that moment.
-/

/-- Value of column `k` in a row; `0` when the column is missing (the call
sites we model never look up a missing column). -/
def getCol (row : List (String × ℚ)) (k : String) : ℚ :=
  match row.find? (fun p => p.1 == k) with
  | some p => p.2
  | none => 0

/-- pandas column assignment `df[k] = v` seen on one row: overwrite the
column if present, append it otherwise. -/
def setCol (row : List (String × ℚ)) (k : String) (v : ℚ) : List (String × ℚ) :=
  if (row.find? (fun p => p.1 == k)).isSome then
    row.map (fun p => if p.1 == k then (k, v) else p)
  else row ++ [(k, v)]

/-- pandas `df.drop(ks, axis=1)` seen on one row. -/
def dropCols (row : List (String × ℚ)) (ks : List String) : List (String × ℚ) :=
  row.filter (fun p => !(ks.contains p.1))

/-- pandas `df.rename(columns={old: nw})` seen on one row. -/
def renameCol (row : List (String × ℚ)) (old nw : String) : List (String × ℚ) :=
  row.map (fun p => if p.1 == old then (nw, p.2) else p)

/-- One candlestick as returned by `polo.returnChartData`
(MarketHistory.py line 68): a unix timestamp and the numeric measurements. -/
structure Candle where
  date : Nat
  high : ℚ
  low : ℚ
  open_ : ℚ
  close : ℚ
  volume : ℚ
  quoteVolume : ℚ
  weightedAverage : ℚ
deriving DecidableEq

/-- One InfluxDB point as built by `scraped_chart`
(MarketHistory.py lines 41-49). -/
structure ScrapedChart where
  measurement : String
  currencyPair : String
  time : Nat
  fields : List (String × ℚ)
deriving DecidableEq

/-- `scraped_chart` (MarketHistory.py 41-49), with the row index and the
field dictionary already extracted from the row. -/
def scraped_chart (currency_pair : String) (t : Nat)
    (fields : List (String × ℚ)) : ScrapedChart :=
  { measurement := "scrapedChart", currencyPair := currency_pair,
    time := t, fields := fields }

/-- pandas `Series.asof` on a series whose index is sorted ascending: the
last sample whose time is `≤ t` (kept with its time); `none` when every
sample is later than `t` (pandas then yields NaN). -/
def asofSample (series : List (Nat × ℚ)) (t : Nat) : Option (Nat × ℚ) :=
  (series.filter (fun p => p.1 ≤ t)).getLast?

/-- `contemporary_usd_price` (MarketHistory.py 51-53):
`row['weightedAverage'] * btc_price_hist['price_usd'].asof(row.name)`.
The `getD 0` stands for the NaN pandas produces when no sample precedes `t`;
theorems about this function assume a preceding sample exists. -/
def contemporary_usd_price (btc_price_usd : List (Nat × ℚ)) (t : Nat)
    (weightedAverage : ℚ) : ℚ :=
  weightedAverage * (((asofSample btc_price_usd t).map Prod.snd).getD 0)

/-- The measurement columns of one candle after MarketHistory.py 71-74: the
DataFrame keeps every `returnChartData` field except `date`, which becomes
the row index (and hence the chart point timestamp). -/
def candleFields (c : Candle) : List (String × ℚ) :=
  [("high", c.high), ("low", c.low), ("open", c.open_), ("close", c.close),
   ("volume", c.volume), ("quoteVolume", c.quoteVolume),
   ("weightedAverage", c.weightedAverage)]

/-- A row of `ts_df` after MarketHistory.py line 75 appended `price_usd`. -/
def candleRow (btc_price_usd : List (Nat × ℚ)) (c : Candle) :
    List (String × ℚ) :=
  candleFields c ++
    [("price_usd", contemporary_usd_price btc_price_usd c.date c.weightedAverage)]

/-- `historical_prices_of` (MarketHistory.py 55-84), applied to the candles
already fetched for the pair: build one chart point per candle and skip the
all-zero sentinel rows, reading `volume` and `weightedAverage` back from
`chart['fields']` exactly as lines 80-84 do. -/
def historical_prices_of (pair : String) (btc_price_usd : List (Nat × ℚ))
    (candles : List Candle) : List ScrapedChart :=
  candles.filterMap (fun c =>
    let chart := scraped_chart pair c.date (candleRow btc_price_usd c)
    if getCol chart.fields "volume" = 0 ∧ getCol chart.fields "weightedAverage" = 0
    then none
    else some chart)

/-- `marshall` (MarketHistory.py 117-126) seen on one row of the
reference-asset DataFrame. -/
def marshall (row : List (String × ℚ)) (key : String) : List (String × ℚ) :=
  let btc_to_usd := getCol row "price_usd" / getCol row "price_btc"
  let row1 := setCol row "volume" (getCol row "volume_usd" / btc_to_usd)
  let row2 := dropCols row1 ["market_cap_by_available_supply", "volume_usd"]
  renameCol row2 key "weightedAverage"

/-- The `price_usd` column of the reference DataFrame as a time-indexed
series (`btc_price_hist['price_usd']`). -/
def btc_usd_series (hist : List (Nat × List (String × ℚ))) : List (Nat × ℚ) :=
  hist.map (fun r => (r.1, getCol r.2 "price_usd"))

/-- The InfluxDB query `select * from scrapedChart order by time desc limit 1`
(MarketHistory.py 88-92): a stored point with the greatest time, if any. -/
def mostRecentPoint (store : List ScrapedChart) : Option ScrapedChart :=
  store.foldl (fun acc p =>
    match acc with
    | none => some p
    | some q => if q.time < p.time then some p else some q) none

/-- The per-market loop of `scrape_since_last_reading` (MarketHistory.py
104-115).  The `try`/`except` around the body is commented out in the
source, so a failed fetch propagates; the error carries the store as
already written (points of earlier markets are already persisted). -/
def ingest_markets (btc_price_usd : List (Nat × ℚ))
    (fetchChart : String → Nat → Nat → Except String (List Candle))
    (sinceTime now : Nat) :
    List String → List ScrapedChart →
      Except (String × List ScrapedChart) (List ScrapedChart)
  | [], store => Except.ok store
  | market :: rest, store =>
    match fetchChart market sinceTime now with
    | Except.error e => Except.error (e, store)
    | Except.ok candles =>
      ingest_markets btc_price_usd fetchChart sinceTime now rest
        (store ++ historical_prices_of market btc_price_usd candles)

/-- `scrape_since_last_reading` (MarketHistory.py 22-132) with its effects
made explicit: the store is a list of points, the reference fetch
(`coin_history('bitcoin')`) and the per-pair candle fetch are arguments, and
the result is the final store, or the aborting error paired with the store
at that moment.  An empty store makes line 98 raise an IndexError. -/
def scrape_since_last_reading (store : List ScrapedChart)
    (btcFetch : Except String (List (Nat × List (String × ℚ))))
    (markets : List String)
    (fetchChart : String → Nat → Nat → Except String (List Candle))
    (now : Nat) : Except (String × List ScrapedChart) (List ScrapedChart) :=
  match btcFetch with
  | Except.error e => Except.error (e, store)
  | Except.ok btc_price_hist =>
    match mostRecentPoint store with
    | none => Except.error ("IndexError: list index out of range", store)
    | some latest =>
      match ingest_markets (btc_usd_series btc_price_hist) fetchChart
              latest.time now markets store with
      | Except.error es => Except.error es
      | Except.ok store1 =>
        Except.ok (store1 ++ btc_price_hist.map (fun r =>
          scraped_chart "USD_BTC" r.1 (marshall r.2 "price_usd")))

/-- The chart points the per-market loop appends for a list of markets, in
iteration order: each market whose fetch succeeds contributes the filtered
charts of its fetched candles (a failing market contributes nothing; the
loop never reaches the markets after it).  Used to state what the store
holds when a run aborts partway. -/
def ingested_charts (btc_price_usd : List (Nat × ℚ))
    (fetchChart : String → Nat → Nat → Except String (List Candle))
    (sinceTime now : Nat) : List String → List ScrapedChart
  | [] => []
  | market :: rest =>
    (match fetchChart market sinceTime now with
     | Except.ok candles => historical_prices_of market btc_price_usd candles
     | Except.error _ => []) ++
    ingested_charts btc_price_usd fetchChart sinceTime now rest

/-- Modelled from the spec: `MarketAdapter` (module moneybot.market.adapters,
not under src/) as the abstract operation record that §6 of the spec gives.
`σ` is the internal adapter state, `ms` the market-state snapshot type, `τ` a
proposed trade.  `get_market_state` returns the snapshot for a time together
with the adapter state afterwards (the adapter caches the snapshot in its
`market_state` attribute, read back by `market_state`); `filter_and_execute`
mutates the internal balances; `balances` reads the internal balance state. -/
structure MarketAdapterOps (σ ms τ : Type) where
  get_market_state : σ → Nat → ms × σ
  filter_and_execute : σ → List τ → σ
  market_state : σ → ms
  estimate_total_value_usd : ms → ℚ
  balances : σ → List (String × ℚ)

/-- Result of one `Fund.step`: the adapter state afterwards, the returned
USD valuation, and the trace of `filter_and_execute` invocations. -/
structure StepResult (σ τ : Type) where
  adapter : σ
  usd_value : ℚ
  executed_calls : List (List τ)

/-- `Fund.step` (fund.py 44-68).  The strategy (module moneybot.strategy, not
under src/) is modelled as a function of the deep-copied snapshot and the
market history; its first result is the snapshot as mutated by the strategy.
Because line 51 hands the strategy a `deepcopy`, that value is private to the
strategy and the source never reads the copy again, so `step` discards it. -/
def Fund.step {σ ms τ η : Type} (ops : MarketAdapterOps σ ms τ)
    (propose_trades : ms → η → ms × List τ)
    (market_history : η) (adapter : σ) (t : Nat) : StepResult σ τ :=
  let gms := ops.get_market_state adapter t
  let copied_market_state := gms.1
  let proposed_trades := (propose_trades copied_market_state market_history).2
  if proposed_trades.isEmpty then
    { adapter := gms.2,
      usd_value := ops.estimate_total_value_usd (ops.market_state gms.2),
      executed_calls := [] }
  else
    let adapter2 := ops.filter_and_execute gms.2 proposed_trades
    { adapter := adapter2,
      usd_value := ops.estimate_total_value_usd (ops.market_state adapter2),
      executed_calls := [proposed_trades] }

/-- Python float modulo for a positive modulus: `a % b = a - b * floor(a/b)`. -/
def pymod (a b : ℚ) : ℚ := a - b * ⌊a / b⌋

/-- The sleep computed at the bottom of `Fund.run_live` (fund.py 89):
`PERIOD - ((time() - start_time) % PERIOD)`, where `start_time` is taken once
before the loop starts (fund.py 71). -/
def run_live_sleep (PERIOD start_time now : ℚ) : ℚ :=
  PERIOD - pymod (now - start_time) PERIOD

/-- `pd.date_range(start, end, freq=f'{interval}S')` (fund.py 105-109) for a
positive interval: the inclusive arithmetic grid `start, start+interval, ...`
capped at `end`; empty when `start > end`. -/
def date_range (start finish step : Nat) : List Nat :=
  if start ≤ finish ∧ 0 < step then
    (List.range ((finish - start) / step + 1)).map (fun k => start + k * step)
  else []

/-- `Fund.begin_backtest` (fund.py 91-112): step once per generated date,
threading the adapter state through the steps and collecting
`(date, usd value)` pairs in order. -/
def Fund.begin_backtest {σ ms τ η : Type} (ops : MarketAdapterOps σ ms τ)
    (propose_trades : ms → η → ms × List τ) (market_history : η)
    (adapter : σ) (start_time end_time trade_interval : Nat) :
    List (Nat × ℚ) :=
  ((date_range start_time end_time trade_interval).foldl
    (fun acc d =>
      let r := Fund.step ops propose_trades market_history acc.2 d
      (acc.1 ++ [(d, r.usd_value)], r.adapter))
    (([] : List (Nat × ℚ)), adapter)).1

/-- A small concrete adapter instance used to evaluate the fund-engine
theorems on closed inputs: the state is the balance list itself, the
snapshot is the BTC balance, and executing trades bumps the BTC balance by
the number of trades. -/
def demoOps : MarketAdapterOps (List (String × ℚ)) ℚ Nat :=
  { get_market_state := fun a _ => (getCol a "BTC", a)
  , filter_and_execute := fun a ts => setCol a "BTC" (getCol a "BTC" + ts.length)
  , market_state := fun a => getCol a "BTC"
  , estimate_total_value_usd := fun m => m
  , balances := fun a => a }

/-- A small concrete candle fetcher used to evaluate the ingestion theorems
on closed inputs: market "A" succeeds with one candle, every other market
fails. -/
def demoFetch : String → Nat → Nat → Except String (List Candle) :=
  fun market _ _ =>
    if market = "A" then Except.ok [⟨2, 1, 1, 1, 1, 1, 1, 1⟩]
    else Except.error "down"

/-! ## Shared helper lemmas -/

/-- The last element of a list, when it exists, is a member. -/
theorem mem_of_getLast_opt {α : Type} : ∀ {l : List α} {x : α},
    l.getLast? = some x → x ∈ l
  | [], x, h => by simp [List.getLast?] at h
  | [a], x, h => by
      simp [List.getLast?] at h
      simp [h]
  | a :: b :: t, x, h => by
      rw [List.getLast?_cons_cons] at h
      exact List.mem_cons_of_mem a (mem_of_getLast_opt h)

/-- In a list of samples sorted by time, the last element has the greatest
time. -/
theorem getLast_opt_time_ge : ∀ {l : List (Nat × ℚ)} {x : Nat × ℚ},
    l.Pairwise (fun p q => p.1 ≤ q.1) → l.getLast? = some x →
    ∀ p ∈ l, p.1 ≤ x.1
  | [], x, _, h => by simp [List.getLast?] at h
  | [a], x, _, h => by
      simp [List.getLast?] at h
      intro p hp
      rw [List.mem_singleton] at hp
      subst hp
      subst h
      exact le_refl _
  | a :: b :: t, x, hs, h => by
      rw [List.getLast?_cons_cons] at h
      have hs' := List.pairwise_cons.mp hs
      intro p hp
      rcases List.mem_cons.mp hp with hpa | hp'
      · subst hpa
        exact hs'.1 x (mem_of_getLast_opt h)
      · exact getLast_opt_time_ge hs'.2 h p hp'

/-! ## C5: carry-forward USD conversion -/

/-- C5: for a candle at time `T`, the computed `price_usd` equals
`weightedAverage` times the reference-series value at the latest reference
sample with time `≤ T`: the factor comes from an actual sample (never an
interpolation) whose time is `≤ T` and which is the most recent such sample. -/
theorem usd_price_carry_forward (ref : List (Nat × ℚ)) (T : Nat) (c : Candle)
    (s0 : Nat) (v : ℚ)
    (hsorted : ref.Pairwise (fun p q => p.1 ≤ q.1))
    (hT : c.date = T)
    (hasof : asofSample ref T = some (s0, v)) :
    getCol (candleRow ref c) "price_usd" = c.weightedAverage * v
    ∧ contemporary_usd_price ref T c.weightedAverage = c.weightedAverage * v
    ∧ s0 ≤ T ∧ (s0, v) ∈ ref
    ∧ ∀ p ∈ ref, p.1 ≤ T → p.1 ≤ s0 := by
  subst hT
  have hval : contemporary_usd_price ref c.date c.weightedAverage
      = c.weightedAverage * v := by
    simp [contemporary_usd_price, hasof]
  have hmemf : (s0, v) ∈ ref.filter (fun p => p.1 ≤ c.date) :=
    mem_of_getLast_opt hasof
  have hmem := List.mem_filter.mp hmemf
  have hle : s0 ≤ c.date := by
    have := hmem.2
    simpa using this
  refine ⟨?_, hval, hle, hmem.1, ?_⟩
  · show contemporary_usd_price ref c.date c.weightedAverage
        = c.weightedAverage * v
    exact hval
  · intro p hp hple
    have hpf : p ∈ ref.filter (fun q => q.1 ≤ c.date) := by
      rw [List.mem_filter]
      exact ⟨hp, by simpa using hple⟩
    exact getLast_opt_time_ge (hsorted.filter _) hasof p hpf

/-- Witness for C5 on a concrete reference series and candle. -/
theorem usd_price_carry_forward_witness :
    (([((1 : Nat), (2 : ℚ)), (3, 5)]).Pairwise (fun p q => p.1 ≤ q.1)
      ∧ (⟨4, 0, 0, 0, 0, 1, 0, 7⟩ : Candle).date = 4
      ∧ asofSample [(1, 2), (3, 5)] 4 = some (3, 5))
    ∧ (getCol (candleRow [(1, 2), (3, 5)] (⟨4, 0, 0, 0, 0, 1, 0, 7⟩ : Candle))
          "price_usd"
        = (⟨4, 0, 0, 0, 0, 1, 0, 7⟩ : Candle).weightedAverage * 5
      ∧ contemporary_usd_price [(1, 2), (3, 5)] 4
            (⟨4, 0, 0, 0, 0, 1, 0, 7⟩ : Candle).weightedAverage
          = (⟨4, 0, 0, 0, 0, 1, 0, 7⟩ : Candle).weightedAverage * 5
      ∧ 3 ≤ 4 ∧ ((3 : Nat), (5 : ℚ)) ∈ [((1 : Nat), (2 : ℚ)), (3, 5)]
      ∧ ∀ p ∈ [((1 : Nat), (2 : ℚ)), (3, 5)], p.1 ≤ 4 → p.1 ≤ 3) :=
  ⟨⟨by decide, rfl, by decide⟩,
   usd_price_carry_forward [(1, 2), (3, 5)] 4 ⟨4, 0, 0, 0, 0, 1, 0, 7⟩ 3 5
     (by decide) rfl (by decide)⟩

/-! ## C4: sentinel filtering -/

/-- C4: a fetched candle is emitted iff it is not the all-zero sentinel
(`volume == 0 and weightedAverage == 0`); every emitted chart point carries
the candle measurement fields unchanged with exactly `price_usd` appended
(the candle `date` becomes the chart timestamp, MarketHistory.py 72-74), and
no emitted chart point is a sentinel. -/
theorem historical_prices_sentinel_filter (pair : String)
    (ref : List (Nat × ℚ)) (candles : List Candle) :
    historical_prices_of pair ref candles
      = (candles.filter
          (fun c => !(decide (c.volume = 0 ∧ c.weightedAverage = 0)))).map
          (fun c => scraped_chart pair c.date
            (candleFields c ++
             [("price_usd",
               contemporary_usd_price ref c.date c.weightedAverage)]))
    ∧ (∀ c : Candle, getCol (candleRow ref c) "volume" = c.volume
        ∧ getCol (candleRow ref c) "weightedAverage" = c.weightedAverage)
    ∧ ∀ chart ∈ historical_prices_of pair ref candles,
        ¬(getCol chart.fields "volume" = 0
          ∧ getCol chart.fields "weightedAverage" = 0) := by
  have hvol : ∀ c : Candle, getCol (candleRow ref c) "volume" = c.volume :=
    fun c => rfl
  have hwa : ∀ c : Candle,
      getCol (candleRow ref c) "weightedAverage" = c.weightedAverage :=
    fun c => rfl
  have hmain : historical_prices_of pair ref candles
      = (candles.filter
          (fun c => !(decide (c.volume = 0 ∧ c.weightedAverage = 0)))).map
          (fun c => scraped_chart pair c.date
            (candleFields c ++
             [("price_usd",
               contemporary_usd_price ref c.date c.weightedAverage)])) := by
    induction candles with
    | nil => rfl
    | cons c cs ih =>
      by_cases h : c.volume = 0 ∧ c.weightedAverage = 0
      · have hcond :
            getCol (scraped_chart pair c.date (candleRow ref c)).fields "volume" = 0
            ∧ getCol (scraped_chart pair c.date (candleRow ref c)).fields
                "weightedAverage" = 0 := by
          refine ⟨?_, ?_⟩
          · show getCol (candleRow ref c) "volume" = 0
            rw [hvol c]
            exact h.1
          · show getCol (candleRow ref c) "weightedAverage" = 0
            rw [hwa c]
            exact h.2
        have hfilter : (c :: cs).filter
              (fun c => !(decide (c.volume = 0 ∧ c.weightedAverage = 0)))
            = cs.filter
              (fun c => !(decide (c.volume = 0 ∧ c.weightedAverage = 0))) := by
          rw [List.filter_cons]
          simp [h.1, h.2]
        calc historical_prices_of pair ref (c :: cs)
            = historical_prices_of pair ref cs := by
              simp only [historical_prices_of, List.filterMap_cons]
              rw [if_pos hcond]
          _ = _ := by rw [ih, hfilter]
      · have hcond :
            ¬(getCol (scraped_chart pair c.date (candleRow ref c)).fields "volume" = 0
              ∧ getCol (scraped_chart pair c.date (candleRow ref c)).fields
                  "weightedAverage" = 0) := by
          show ¬(getCol (candleRow ref c) "volume" = 0
            ∧ getCol (candleRow ref c) "weightedAverage" = 0)
          rw [hvol c, hwa c]
          exact h
        have hfilter : (c :: cs).filter
              (fun c => !(decide (c.volume = 0 ∧ c.weightedAverage = 0)))
            = c :: cs.filter
              (fun c => !(decide (c.volume = 0 ∧ c.weightedAverage = 0))) := by
          rw [List.filter_cons]
          simp [h]
        calc historical_prices_of pair ref (c :: cs)
            = scraped_chart pair c.date (candleRow ref c)
                :: historical_prices_of pair ref cs := by
              simp only [historical_prices_of, List.filterMap_cons]
              rw [if_neg hcond]
          _ = _ := by
              rw [ih, hfilter, List.map_cons]
              rfl
  refine ⟨hmain, fun c => ⟨hvol c, hwa c⟩, ?_⟩
  intro chart hchart
  rw [hmain] at hchart
  rcases List.mem_map.mp hchart with ⟨c, hc, rfl⟩
  rcases List.mem_filter.mp hc with ⟨_, hcond⟩
  intro hzero
  have hv0 : c.volume = 0 := by
    have h1 : getCol (candleRow ref c) "volume" = 0 := hzero.1
    rw [hvol c] at h1
    exact h1
  have hw0 : c.weightedAverage = 0 := by
    have h1 : getCol (candleRow ref c) "weightedAverage" = 0 := hzero.2
    rw [hwa c] at h1
    exact h1
  simp [hv0, hw0] at hcond

/-! ## C6: reference-series reconciliation -/

/-- C6 counterexample: on a concrete reference row, the reconciled output of
the `USD_BTC` write (`marshall` with `key='price_usd'`, MarketHistory.py 129)
carries no `price_usd` column: that column was renamed to `weightedAverage`,
so the claim that the output carries `price_usd` is false. -/
theorem marshall_price_usd_absent_counterexample :
    "price_usd" ∉ (marshall [("market_cap_by_available_supply", 1),
        ("price_btc", 1), ("price_usd", 2), ("volume_usd", 10)]
        "price_usd").map Prod.fst := by decide

/-- C6 amended: for every reference row (columns
`market_cap_by_available_supply`, `price_btc`, `price_usd`, `volume_usd`),
the reconciled `USD_BTC` row has `volume = volume_usd / (price_usd /
price_btc)` exactly, drops `market_cap_by_available_supply` and
`volume_usd`, and carries exactly the columns `price_btc`,
`weightedAverage`, `volume`; `price_usd` itself is renamed to
`weightedAverage` and is absent from the output. -/
theorem marshall_usd_btc_reconciliation (m b u vu : ℚ) :
    marshall [("market_cap_by_available_supply", m), ("price_btc", b),
        ("price_usd", u), ("volume_usd", vu)] "price_usd"
      = [("price_btc", b), ("weightedAverage", u), ("volume", vu / (u / b))]
    ∧ getCol (marshall [("market_cap_by_available_supply", m),
        ("price_btc", b), ("price_usd", u), ("volume_usd", vu)] "price_usd")
        "volume" = vu / (u / b)
    ∧ (marshall [("market_cap_by_available_supply", m), ("price_btc", b),
        ("price_usd", u), ("volume_usd", vu)] "price_usd").map Prod.fst
      = ["price_btc", "weightedAverage", "volume"] :=
  ⟨rfl, rfl, rfl⟩

/-! ## C8: live-loop drift compensation -/

/-- C8: the sleep of the live loop is drift-compensated: it equals
`interval - ((now - loop_start) mod interval)` with `loop_start` the time
the loop started, and a step finishing 5 seconds after `loop_start` with a
60-second interval sleeps 55 seconds, not 60. -/
theorem live_sleep_drift_compensation :
    (∀ interval loop_start now : ℚ,
        run_live_sleep interval loop_start now
          = interval - pymod (now - loop_start) interval)
    ∧ (∀ loop_start : ℚ,
        run_live_sleep 60 loop_start (loop_start + 5) = 55) := by
  constructor
  · intro interval loop_start now
    rfl
  · intro t
    unfold run_live_sleep pymod
    have h1 : t + 5 - t = (5 : ℚ) := by ring
    rw [h1]
    have h2 : ⌊(5 : ℚ) / 60⌋ = 0 := by
      rw [Int.floor_eq_zero_iff]
      constructor
      · norm_num
      · norm_num
    rw [h2]
    norm_num

/-! ## C3: cold start -/

/-- C3 counterexample: on an empty store (cold start) with a healthy
reference fetch, the ingestion run fails with the propagated index error
instead of recovering with a default lookback. -/
theorem scrape_cold_start_counterexample :
    scrape_since_last_reading [] (Except.ok [(0, [("price_usd", 1)])])
      ["BTC_ETH"] (fun _ _ _ => Except.ok []) 100
      = Except.error ("IndexError: list index out of range", []) := rfl

/-- C3 amended: when the store contains no chart points, the run fails and
the failure propagates to the caller: indexing the empty query result
(MarketHistory.py 96-98) raises, no `now - 1 year` default is applied, and
nothing is written. -/
theorem scrape_cold_start_propagates
    (btc_price_hist : List (Nat × List (String × ℚ)))
    (markets : List String)
    (fetchChart : String → Nat → Nat → Except String (List Candle))
    (now : Nat) :
    scrape_since_last_reading [] (Except.ok btc_price_hist) markets
        fetchChart now
      = Except.error ("IndexError: list index out of range", []) := rfl

/-! ## C2: per-pair failure isolation -/

/-- C2 counterexample: three markets where the fetch for the middle one
fails (the per-market `try`/`except` is commented out in MarketHistory.py
108-115): the run aborts with the error, the pair before the failure stays
ingested in the store, and the pair after it — whose fetch would succeed —
is never ingested, refuting the claim that the remaining pairs proceed. -/
theorem scrape_pair_failure_counterexample :
    scrape_since_last_reading
        [scraped_chart "BTC_ETH" 50 [("volume", 1), ("weightedAverage", 1)]]
        (Except.ok [(0, [("price_usd", 2)])])
        ["AAA", "BBB", "CCC"]
        (fun market _ _ =>
          if market = "AAA" then Except.ok [⟨60, 1, 1, 1, 1, 1, 1, 3⟩]
          else if market = "BBB" then Except.error "boom"
          else Except.ok [⟨70, 1, 1, 1, 1, 1, 1, 4⟩])
        100
      = Except.error ("boom",
          [scraped_chart "BTC_ETH" 50 [("volume", 1), ("weightedAverage", 1)],
           scraped_chart "AAA" 60
             [("high", 1), ("low", 1), ("open", 1), ("close", 1),
              ("volume", 1), ("quoteVolume", 1), ("weightedAverage", 3),
              ("price_usd", (3 : ℚ) * 2)]]) := rfl

/-- If every market before `m` in the iteration order fetches successfully
and the fetch for `m` fails, the per-market loop aborts with that error,
having appended exactly the charts of the markets before `m`; the markets
after `m` are never reached.  `sinceTime` is fixed for the whole loop, as in
the source (latest_fetch_unix is computed once, MarketHistory.py 100-102). -/
theorem ingest_markets_fail_at (btc : List (Nat × ℚ))
    (fetchChart : String → Nat → Nat → Except String (List Candle))
    (st now : Nat) (m e : String) :
    ∀ (pre rest : List String) (store : List ScrapedChart),
      (∀ mk ∈ pre, ∃ cs, fetchChart mk st now = Except.ok cs) →
      fetchChart m st now = Except.error e →
      ingest_markets btc fetchChart st now (pre ++ m :: rest) store
        = Except.error (e, store ++ ingested_charts btc fetchChart st now pre)
  | [], rest, store, _, hfail => by
      simp only [List.nil_append, ingest_markets, hfail, ingested_charts,
        List.append_nil]
  | mk :: pre, rest, store, hpre, hfail => by
      obtain ⟨cs, hcs⟩ := hpre mk (List.mem_cons_self mk pre)
      have hpre' : ∀ x ∈ pre, ∃ cs, fetchChart x st now = Except.ok cs :=
        fun x hx => hpre x (List.mem_cons_of_mem mk hx)
      simp only [List.cons_append, ingest_markets, hcs, List.append_eq]
      rw [ingest_markets_fail_at btc fetchChart st now m e pre rest
        (store ++ historical_prices_of mk btc cs) hpre' hfail]
      simp only [ingested_charts, hcs, List.append_assoc]

/-- C2 amended: a fetch failure for one pair, at any position of the
iteration order, aborts the whole ingestion run: the error propagates to
the caller, the store keeps its prior content plus exactly the charts of
the pairs ingested before the failure, and no pair after the failing one is
ingested. -/
theorem scrape_pair_failure_aborts (store : List ScrapedChart)
    (btc_price_hist : List (Nat × List (String × ℚ)))
    (pre : List String) (m : String) (rest : List String)
    (fetchChart : String → Nat → Nat → Except String (List Candle))
    (now : Nat) (p : ScrapedChart) (e : String)
    (hstore : mostRecentPoint store = some p)
    (hpre : ∀ mk ∈ pre, ∃ cs, fetchChart mk p.time now = Except.ok cs)
    (hfail : fetchChart m p.time now = Except.error e) :
    scrape_since_last_reading store (Except.ok btc_price_hist)
        (pre ++ m :: rest) fetchChart now
      = Except.error (e, store
          ++ ingested_charts (btc_usd_series btc_price_hist) fetchChart
               p.time now pre) := by
  simp only [scrape_since_last_reading, hstore]
  rw [ingest_markets_fail_at (btc_usd_series btc_price_hist) fetchChart
    p.time now m e pre rest store hpre hfail]

/-- Witness for C2 (amended) on concrete inputs with a mid-run failure:
market "A" succeeds before market "M" fails, and market "Z" sits after. -/
theorem scrape_pair_failure_aborts_witness :
    (mostRecentPoint [scraped_chart "X" 1 []] = some (scraped_chart "X" 1 [])
      ∧ (∀ mk ∈ ["A"], ∃ cs,
          demoFetch mk (scraped_chart "X" 1 []).time 9 = Except.ok cs)
      ∧ demoFetch "M" (scraped_chart "X" 1 []).time 9 = Except.error "down")
    ∧ scrape_since_last_reading [scraped_chart "X" 1 []] (Except.ok [])
        (["A"] ++ "M" :: ["Z"]) demoFetch 9
      = Except.error ("down",
          [scraped_chart "X" 1 []]
            ++ ingested_charts (btc_usd_series []) demoFetch
                 (scraped_chart "X" 1 []).time 9 ["A"]) :=
  ⟨⟨rfl,
    fun mk hmk => by
      rw [List.mem_singleton] at hmk
      subst hmk
      exact ⟨[⟨2, 1, 1, 1, 1, 1, 1, 1⟩], rfl⟩,
    rfl⟩,
   scrape_pair_failure_aborts [scraped_chart "X" 1 []] [] ["A"] "M" ["Z"]
     demoFetch 9 (scraped_chart "X" 1 []) "down" rfl
     (fun mk hmk => by
       rw [List.mem_singleton] at hmk
       subst hmk
       exact ⟨[⟨2, 1, 1, 1, 1, 1, 1, 1⟩], rfl⟩)
     rfl⟩

/-! ## C1: strategy isolation -/

/-- C1: isolation of the decision component.  `Fund.step` hands the strategy
a deep copy of the market state (fund.py 51); in the embedding the mutations
the strategy performs on that copy are its first return component, which
`step` discards.  Two strategies that propose the same trades, however
differently they mutate their snapshots, produce the same adapter state,
valuation and execution trace, and hence the same subsequent snapshots: no
mutation of the snapshot is observable except via the proposed trades. -/
theorem step_isolation {σ ms τ η : Type} (ops : MarketAdapterOps σ ms τ)
    (s1 s2 : ms → η → ms × List τ) (market_history : η) (adapter : σ)
    (t : Nat)
    (h : ∀ m hi, (s1 m hi).2 = (s2 m hi).2) :
    Fund.step ops s1 market_history adapter t
      = Fund.step ops s2 market_history adapter t
    ∧ ∀ t' : Nat,
        ops.get_market_state
            (Fund.step ops s1 market_history adapter t).adapter t'
          = ops.get_market_state
              (Fund.step ops s2 market_history adapter t).adapter t' := by
  have hstep : Fund.step ops s1 market_history adapter t
      = Fund.step ops s2 market_history adapter t := by
    simp only [Fund.step, h]
  exact ⟨hstep, fun t' => by rw [hstep]⟩

/-- Witness for C1: two concrete strategies that mutate their snapshot
copies differently but propose the same single trade. -/
theorem step_isolation_witness :
    (∀ (m : ℚ) (hi : Unit),
        ((fun (m : ℚ) (_ : Unit) => (m + 1, [(1 : Nat)])) m hi).2
          = ((fun (m : ℚ) (_ : Unit) => (m * 17, [(1 : Nat)])) m hi).2)
    ∧ (Fund.step demoOps (fun (m : ℚ) (_ : Unit) => (m + 1, [(1 : Nat)]))
          () [("BTC", 3)] 5
        = Fund.step demoOps (fun (m : ℚ) (_ : Unit) => (m * 17, [(1 : Nat)]))
            () [("BTC", 3)] 5
       ∧ ∀ t' : Nat,
          demoOps.get_market_state
              (Fund.step demoOps
                (fun (m : ℚ) (_ : Unit) => (m + 1, [(1 : Nat)]))
                () [("BTC", 3)] 5).adapter t'
            = demoOps.get_market_state
                (Fund.step demoOps
                  (fun (m : ℚ) (_ : Unit) => (m * 17, [(1 : Nat)]))
                  () [("BTC", 3)] 5).adapter t') :=
  ⟨fun _ _ => rfl,
   step_isolation demoOps (fun (m : ℚ) (_ : Unit) => (m + 1, [(1 : Nat)]))
     (fun (m : ℚ) (_ : Unit) => (m * 17, [(1 : Nat)])) () [("BTC", 3)] 5
     (fun _ _ => rfl)⟩

/-! ## C9: execution happens iff trades were proposed -/

/-- C9: `filter_and_execute` is invoked iff the strategy proposed at least
one trade (`if proposed_trades:` at fund.py 56); with zero proposals the
internal balances are untouched, given the spec-modelled fact that taking a
snapshot does not change balances, and the step still returns the total USD
valuation of the adapter market state. -/
theorem step_execute_iff_trades {σ ms τ η : Type}
    (ops : MarketAdapterOps σ ms τ)
    (propose_trades : ms → η → ms × List τ) (market_history : η)
    (adapter : σ) (t : Nat)
    (hbal : ∀ (a : σ) (u : Nat),
      ops.balances (ops.get_market_state a u).2 = ops.balances a) :
    ((Fund.step ops propose_trades market_history adapter t).executed_calls
        = if (propose_trades (ops.get_market_state adapter t).1
                market_history).2.isEmpty
          then []
          else [(propose_trades (ops.get_market_state adapter t).1
                  market_history).2])
    ∧ ((propose_trades (ops.get_market_state adapter t).1 market_history).2
          = [] →
        ops.balances
            (Fund.step ops propose_trades market_history adapter t).adapter
          = ops.balances adapter)
    ∧ (Fund.step ops propose_trades market_history adapter t).usd_value
        = ops.estimate_total_value_usd
            (ops.market_state
              (Fund.step ops propose_trades market_history adapter t).adapter) := by
  by_cases hp : (propose_trades (ops.get_market_state adapter t).1
      market_history).2.isEmpty
  · refine ⟨?_, ?_, ?_⟩
    · simp [Fund.step, hp]
    · intro _
      simp only [Fund.step, hp, if_true]
      exact hbal adapter t
    · simp [Fund.step, hp]
  · refine ⟨?_, ?_, ?_⟩
    · simp [Fund.step, hp]
    · intro hnil
      exact absurd (by rw [hnil]; rfl) hp
    · simp [Fund.step, hp]

/-- Witness for C9: a strategy proposing no trades against the concrete
adapter leaves the balances untouched. -/
theorem step_execute_iff_trades_witness :
    (∀ (a : List (String × ℚ)) (u : Nat),
        demoOps.balances (demoOps.get_market_state a u).2
          = demoOps.balances a)
    ∧ (((Fund.step demoOps
            (fun (_ : ℚ) (_ : Unit) => ((0 : ℚ), ([] : List Nat)))
            () [("BTC", 3)] 7).executed_calls
          = if ((fun (_ : ℚ) (_ : Unit) => ((0 : ℚ), ([] : List Nat)))
                  (demoOps.get_market_state [("BTC", 3)] 7).1 ()).2.isEmpty
            then []
            else [((fun (_ : ℚ) (_ : Unit) => ((0 : ℚ), ([] : List Nat)))
                    (demoOps.get_market_state [("BTC", 3)] 7).1 ()).2])
      ∧ (((fun (_ : ℚ) (_ : Unit) => ((0 : ℚ), ([] : List Nat)))
              (demoOps.get_market_state [("BTC", 3)] 7).1 ()).2 = [] →
          demoOps.balances
              (Fund.step demoOps
                (fun (_ : ℚ) (_ : Unit) => ((0 : ℚ), ([] : List Nat)))
                () [("BTC", 3)] 7).adapter
            = demoOps.balances [("BTC", 3)])
      ∧ (Fund.step demoOps
            (fun (_ : ℚ) (_ : Unit) => ((0 : ℚ), ([] : List Nat)))
            () [("BTC", 3)] 7).usd_value
          = demoOps.estimate_total_value_usd
              (demoOps.market_state
                (Fund.step demoOps
                  (fun (_ : ℚ) (_ : Unit) => ((0 : ℚ), ([] : List Nat)))
                  () [("BTC", 3)] 7).adapter)) :=
  ⟨fun _ _ => rfl,
   step_execute_iff_trades demoOps
     (fun (_ : ℚ) (_ : Unit) => ((0 : ℚ), ([] : List Nat)))
     () [("BTC", 3)] 7 (fun _ _ => rfl)⟩

/-! ## C7 and C10: backtest timestamp grid -/

/-- Mapping the fold of `Fund.begin_backtest` over a date list visits
exactly those dates, in order, whatever the accumulator and adapter state. -/
theorem backtest_fold_times {σ ms τ η : Type} (ops : MarketAdapterOps σ ms τ)
    (propose_trades : ms → η → ms × List τ) (market_history : η) :
    ∀ (l : List Nat) (acc : List (Nat × ℚ)) (a : σ),
      ((l.foldl (fun acc d =>
          let r := Fund.step ops propose_trades market_history acc.2 d
          (acc.1 ++ [(d, r.usd_value)], r.adapter)) (acc, a)).1).map Prod.fst
        = acc.map Prod.fst ++ l
  | [], acc, a => by simp
  | d :: l, acc, a => by
      rw [List.foldl_cons]
      rw [backtest_fold_times ops propose_trades market_history l
        (acc ++ [(d, (Fund.step ops propose_trades market_history a d).usd_value)])
        (Fund.step ops propose_trades market_history a d).adapter]
      simp

/-- Membership in the backtest grid: exactly the times
`start + k * interval` that do not exceed the end time. -/
theorem mem_date_range {s e i t : Nat} (hi : 0 < i) :
    t ∈ date_range s e i ↔ ∃ k, t = s + k * i ∧ t ≤ e := by
  unfold date_range
  by_cases hse : s ≤ e
  · rw [if_pos ⟨hse, hi⟩]
    constructor
    · intro ht
      rcases List.mem_map.mp ht with ⟨k, hk, rfl⟩
      have hk' : k ≤ (e - s) / i := Nat.lt_succ_iff.mp (List.mem_range.mp hk)
      have h1 : k * i ≤ (e - s) / i * i := Nat.mul_le_mul_right _ hk'
      have h2 : (e - s) / i * i ≤ e - s := Nat.div_mul_le_self _ _
      exact ⟨k, rfl, by omega⟩
    · rintro ⟨k, rfl, hle⟩
      refine List.mem_map.mpr ⟨k, List.mem_range.mpr ?_, rfl⟩
      have h1 : k * i ≤ e - s := by omega
      have h2 : k ≤ (e - s) / i := (Nat.le_div_iff_mul_le hi).mpr h1
      omega
  · rw [if_neg (by omega)]
    simp only [List.not_mem_nil, false_iff]
    rintro ⟨k, rfl, hle⟩
    omega

/-- The backtest grid is strictly increasing. -/
theorem date_range_pairwise {s e i : Nat} (hi : 0 < i) :
    (date_range s e i).Pairwise (· < ·) := by
  unfold date_range
  split
  · refine List.pairwise_map.mpr ?_
    refine (List.pairwise_lt_range _).imp ?_
    intro a b hab
    have : a * i < b * i := (Nat.mul_lt_mul_right hi).mpr hab
    omega
  · exact List.Pairwise.nil

/-- C7: `begin_backtest` steps once per timestamp of the grid
`start, start+interval, start+2*interval, ...` capped inclusively at `end`;
the visited grid is `date_range (start, end, interval)`, a pure function of
those three values alone — independent of adapter, strategy and history, so
two runs with the same arguments visit the identical ordered sequence — the
grid contains exactly the times `start + k * interval ≤ end`, is strictly
increasing, and on the spec example it is `[0, 3600, 7200]`. -/
theorem begin_backtest_timestamps {σ ms τ η : Type}
    (ops : MarketAdapterOps σ ms τ)
    (propose_trades : ms → η → ms × List τ) (market_history : η)
    (adapter : σ) (s e i : Nat) (hi : 0 < i) :
    (Fund.begin_backtest ops propose_trades market_history adapter s e i).map
        Prod.fst
      = date_range s e i
    ∧ (∀ t, t ∈ date_range s e i ↔ ∃ k, t = s + k * i ∧ t ≤ e)
    ∧ (date_range s e i).Pairwise (· < ·)
    ∧ date_range 0 7200 3600 = [0, 3600, 7200] := by
  refine ⟨?_, fun t => mem_date_range hi, date_range_pairwise hi, by decide⟩
  unfold Fund.begin_backtest
  simpa using backtest_fold_times ops propose_trades market_history
    (date_range s e i) [] adapter

/-- Witness for C7 on the spec example with the concrete adapter. -/
theorem begin_backtest_timestamps_witness :
    0 < 3600
    ∧ ((Fund.begin_backtest demoOps
          (fun (_ : ℚ) (_ : Unit) => ((0 : ℚ), ([] : List Nat)))
          () [("BTC", 1)] 0 7200 3600).map Prod.fst
        = date_range 0 7200 3600
      ∧ (∀ t, t ∈ date_range 0 7200 3600 ↔ ∃ k, t = 0 + k * 3600 ∧ t ≤ 7200)
      ∧ (date_range 0 7200 3600).Pairwise (· < ·)
      ∧ date_range 0 7200 3600 = [0, 3600, 7200]) :=
  ⟨by decide,
   begin_backtest_timestamps demoOps
     (fun (_ : ℚ) (_ : Unit) => ((0 : ℚ), ([] : List Nat)))
     () [("BTC", 1)] 0 7200 3600 (by decide)⟩

/-- C10: with a start time strictly after the end time, the backtest yields
nothing: the date grid is empty, so no step is taken and the generator
produces no valuations. -/
theorem begin_backtest_empty_when_reversed {σ ms τ η : Type}
    (ops : MarketAdapterOps σ ms τ)
    (propose_trades : ms → η → ms × List τ) (market_history : η)
    (adapter : σ) (s e i : Nat) (h : e < s) :
    date_range s e i = []
    ∧ Fund.begin_backtest ops propose_trades market_history adapter s e i
        = [] := by
  have hdr : date_range s e i = [] := by
    unfold date_range
    rw [if_neg (by omega)]
  refine ⟨hdr, ?_⟩
  unfold Fund.begin_backtest
  rw [hdr]
  rfl

/-- Witness for C10 on concrete reversed bounds. -/
theorem begin_backtest_empty_when_reversed_witness :
    3 < 10
    ∧ (date_range 10 3 5 = []
      ∧ Fund.begin_backtest demoOps
          (fun (_ : ℚ) (_ : Unit) => ((0 : ℚ), ([] : List Nat)))
          () [("BTC", 1)] 10 3 5 = []) :=
  ⟨by decide,
   begin_backtest_empty_when_reversed demoOps
     (fun (_ : ℚ) (_ : Unit) => ((0 : ℚ), ([] : List Nat)))
     () [("BTC", 1)] 10 3 5 (by decide)⟩
